import Mathlib

/-!
Verification of the tenant-orchestration subsystem of the ascl-bot repository
against its natural-language specification.

The Python source is shallowly embedded:
- `APICredentialPool` (host_manager.py) becomes a `List APICredential` with
  index-based mutation, mirroring Python object identity: an in-memory
  `UserInstance.api_credential` is the same object as a pool entry, so the
  embedding stores the pool position (`credIdx`) instead of a copy.
- `TelegramSessionManager` (session_manager.py) becomes explicit state
  passing; calls to the external Telethon provider are modelled by an
  outcome argument covering exactly the outcomes the source distinguishes
  (success / `SessionPasswordNeededError` / `PhoneCodeInvalidError` /
  generic exception), and the provider interactions a call performs are
  returned as an ordered event list.
- Timestamps (`time.time()`, `datetime.now().timestamp()`) become an explicit
  `now : Int` argument.
- Filesystem effects needed by the claims (the per-tenant environment
  directory, secure file wiping in security_manager.py) are modelled as
  explicit data; other I/O (JSON persistence, logging) is a no-op on the
  modelled state, as it does not change the in-memory fields the claims
  speak about.
-/

namespace Ascl

/-- One entry of api_credentials.json (host_manager.py, `APICredential`).
Python integers are unbounded, so counters are `Int`. -/
structure APICredential where
  api_id : Int
  api_hash : String
  app_name : String
  in_use : Int
  max_users : Int
  created_at : Int
  last_used : Int
deriving DecidableEq

/-- Helper of `APICredentialPool.get_available_credential`: the Python builtin
`min(available, key=lambda x: x.in_use)` scans left to right and replaces the
current best only on a strictly smaller key, so ties keep the earliest
element. -/
def minByInUse (best : APICredential) : List APICredential → APICredential
  | [] => best
  | c :: cs => if c.in_use < best.in_use then minByInUse c cs else minByInUse best cs

/-- Embedding of `APICredentialPool.get_available_credential`: filter the credentials with
`in_use < max_users`, return `None` when empty, otherwise the least used
(first on ties). -/
def get_available_credential (pool : List APICredential) : Option APICredential :=
  match pool.filter (fun c => decide (c.in_use < c.max_users)) with
  | [] => none
  | c :: cs => some (minByInUse c cs)

/-- Pool position of the credential object `get_available_credential` returns.
Python hands back a reference into `self.credentials`; the embedding recovers
that identity as the first pool index holding an equal credential (credentials
with equal field values are interchangeable). -/
def get_available_index (pool : List APICredential) : Option Nat :=
  match get_available_credential pool with
  | none => none
  | some c => List.findIdx? (fun d => decide (d = c)) pool

/-- Embedding of `APICredentialPool.allocate_credential`, acting on the pool entry at
position `i` (the argument is a reference to a pool element in the source).
Fails without mutating when `in_use >= max_users`; otherwise increments
`in_use`, stamps `last_used` and persists. The out-of-range branch is
unreachable in the source (the argument is always a pool element). -/
def allocate_credential (pool : List APICredential) (i : Nat) (now : Int) :
    Bool × List APICredential :=
  match pool[i]? with
  | none => (false, pool)
  | some c =>
    if c.max_users ≤ c.in_use then (false, pool)
    else (true, pool.set i { c with in_use := c.in_use + 1, last_used := now })

/-- Embedding of `APICredentialPool.release_credential`, acting on the pool entry at
position `i`: decrements `in_use` when positive, otherwise a no-op returning
`False`. -/
def release_credential (pool : List APICredential) (i : Nat) :
    Bool × List APICredential :=
  match pool[i]? with
  | none => (false, pool)
  | some c =>
    if 0 < c.in_use then (true, pool.set i { c with in_use := c.in_use - 1 })
    else (false, pool)

/-- The operations of `APICredentialPool`. `getAvailable` and `save` touch no
credential counter (`get_available_credential` only reads; `save_credentials`
writes the JSON file); `alloc` and `release` are the two mutators. -/
inductive PoolOp
  | alloc (i : Nat) (now : Int)
  | release (i : Nat)
  | getAvailable
  | save
deriving DecidableEq

/-- Effect of one pool operation on the credential list. -/
def applyPoolOp (pool : List APICredential) : PoolOp → List APICredential
  | PoolOp.alloc i now => (allocate_credential pool i now).2
  | PoolOp.release i => (release_credential pool i).2
  | PoolOp.getAvailable => pool
  | PoolOp.save => pool

/-- A sequence of pool operations, applied left to right. -/
def applyPoolOps (pool : List APICredential) (ops : List PoolOp) : List APICredential :=
  ops.foldl applyPoolOp pool

/-- The credential invariant of the spec: `0 ≤ in_use ≤ max_users`. -/
def credInv (c : APICredential) : Prop := 0 ≤ c.in_use ∧ c.in_use ≤ c.max_users

instance (c : APICredential) : Decidable (credInv c) := by
  unfold credInv; infer_instance

theorem applyPoolOp_preserves_credInv (pool : List APICredential) (op : PoolOp)
    (h : ∀ c ∈ pool, credInv c) : ∀ c ∈ applyPoolOp pool op, credInv c := by
  intro c hc
  cases op with
  | alloc i now =>
    simp only [applyPoolOp, allocate_credential] at hc
    cases hget : pool[i]? with
    | none => rw [hget] at hc; exact h c hc
    | some a =>
      rw [hget] at hc
      by_cases hsat : a.max_users ≤ a.in_use
      · simp only [if_pos hsat] at hc; exact h c hc
      · simp only [if_neg hsat] at hc
        rcases List.mem_or_eq_of_mem_set hc with hmem | heq
        · exact h c hmem
        · subst heq
          have ha : credInv a := h a (List.getElem?_mem hget)
          push_neg at hsat
          unfold credInv at ha ⊢
          show (0 : Int) ≤ a.in_use + 1 ∧ a.in_use + 1 ≤ a.max_users
          omega
  | release i =>
    simp only [applyPoolOp, release_credential] at hc
    cases hget : pool[i]? with
    | none => rw [hget] at hc; exact h c hc
    | some a =>
      rw [hget] at hc
      by_cases hpos : (0 : Int) < a.in_use
      · simp only [if_pos hpos] at hc
        rcases List.mem_or_eq_of_mem_set hc with hmem | heq
        · exact h c hmem
        · subst heq
          have ha : credInv a := h a (List.getElem?_mem hget)
          unfold credInv at ha ⊢
          show (0 : Int) ≤ a.in_use - 1 ∧ a.in_use - 1 ≤ a.max_users
          omega
      · simp only [if_neg hpos] at hc; exact h c hc
  | getAvailable => exact h c hc
  | save => exact h c hc

theorem applyPoolOps_preserves_credInv (ops : List PoolOp) :
    ∀ pool : List APICredential, (∀ c ∈ pool, credInv c) →
      ∀ c ∈ applyPoolOps pool ops, credInv c := by
  induction ops with
  | nil => intro pool h; exact h
  | cons op rest ih =>
    intro pool h
    have hstep := applyPoolOp_preserves_credInv pool op h
    simpa [applyPoolOps, List.foldl_cons] using ih (applyPoolOp pool op) hstep

/-- Every `minByInUse best l` result splits `best :: l` at the returned
element: everything to its left has strictly larger `in_use`, and it is a
global minimum of `best :: l`.  This is exactly the first-minimum semantics of
the Python builtin `min` with a key function. -/
theorem minByInUse_decomp (l : List APICredential) :
    ∀ best : APICredential, ∃ l1 l2 : List APICredential,
      best :: l = l1 ++ minByInUse best l :: l2 ∧
      (∀ d ∈ best :: l, (minByInUse best l).in_use ≤ d.in_use) ∧
      (∀ d ∈ l1, (minByInUse best l).in_use < d.in_use) := by
  induction l with
  | nil =>
    intro best
    refine ⟨[], [], by simp [minByInUse], ?_, by simp⟩
    intro d hd
    simp only [List.mem_singleton] at hd
    subst hd
    simp [minByInUse]
  | cons c cs ih =>
    intro best
    by_cases hlt : c.in_use < best.in_use
    · obtain ⟨l1, l2, hdec, hle, hltl⟩ := ih c
      have hres : minByInUse best (c :: cs) = minByInUse c cs := by
        simp [minByInUse, hlt]
      refine ⟨best :: l1, l2, ?_, ?_, ?_⟩
      · rw [hres, List.cons_append]
        exact congrArg (best :: ·) hdec
      · intro d hd
        rw [hres]
        rcases List.mem_cons.mp hd with hd | hd
        · subst hd
          have hc : (minByInUse c cs).in_use ≤ c.in_use := hle c (List.mem_cons_self c cs)
          omega
        · exact hle d hd
      · intro d hd
        rw [hres]
        rcases List.mem_cons.mp hd with hd | hd
        · subst hd
          have hc : (minByInUse c cs).in_use ≤ c.in_use := hle c (List.mem_cons_self c cs)
          omega
        · exact hltl d hd
    · obtain ⟨l1, l2, hdec, hle, hltl⟩ := ih best
      have hres : minByInUse best (c :: cs) = minByInUse best cs := by
        simp [minByInUse, hlt]
      cases l1 with
      | nil =>
        simp only [List.nil_append] at hdec
        have hbest : minByInUse best cs = best := by
          injection hdec with h1 h2
          exact h1.symm
        refine ⟨[], c :: cs, by simp [hres, hbest], ?_, by simp⟩
        intro d hd
        rw [hres, hbest]
        rcases List.mem_cons.mp hd with hd | hd
        · subst hd; omega
        rcases List.mem_cons.mp hd with hd | hd
        · subst hd; omega
        · have := hle d (List.mem_cons_of_mem best hd)
          rw [hbest] at this
          exact this
      | cons b t =>
        simp only [List.cons_append] at hdec
        injection hdec with h1 h2
        have hbb : (minByInUse best cs).in_use < b.in_use :=
          hltl b (List.mem_cons_self b t)
        have hbeq : b = best := h1.symm
        refine ⟨best :: c :: t, l2, ?_, ?_, ?_⟩
        · rw [hres]
          conv_lhs => rw [h2]
          simp [List.cons_append]
        · intro d hd
          rw [hres]
          rcases List.mem_cons.mp hd with hd | hd
          · rw [hd]; exact hle best (List.mem_cons_self best cs)
          rcases List.mem_cons.mp hd with hd | hd
          · rw [hd]
            rw [hbeq] at hbb
            omega
          · exact hle d (List.mem_cons_of_mem best hd)
        · intro d hd
          rw [hres]
          rcases List.mem_cons.mp hd with hd | hd
          · rw [hd]
            rw [hbeq] at hbb
            exact hbb
          rcases List.mem_cons.mp hd with hd | hd
          · rw [hd]
            rw [hbeq] at hbb
            omega
          · exact hltl d (List.mem_cons_of_mem b hd)

/-- Lifting a split of `pool.filter p` back to a split of `pool`: the part of
`pool` left of the distinguished element filters to exactly the left part of
the filtered list. -/
theorem filter_split {p : APICredential → Bool} :
    ∀ (pool l1f l2f : List APICredential) (c : APICredential),
      pool.filter p = l1f ++ c :: l2f →
      ∃ l1 l2, pool = l1 ++ c :: l2 ∧ l1.filter p = l1f ∧ p c = true := by
  intro pool
  induction pool with
  | nil =>
    intro l1f l2f c h
    simp only [List.filter_nil] at h
    exact absurd h.symm (List.append_ne_nil_of_right_ne_nil l1f (by simp))
  | cons a rest ih =>
    intro l1f l2f c h
    by_cases hpa : p a
    · rw [List.filter_cons_of_pos hpa] at h
      cases l1f with
      | nil =>
        simp only [List.nil_append] at h
        injection h with h1 h2
        subst h1
        exact ⟨[], rest, by simp, by simp, hpa⟩
      | cons b t =>
        simp only [List.cons_append] at h
        injection h with h1 h2
        obtain ⟨l1, l2, hdec, hfil, hpc⟩ := ih t l2f c h2
        refine ⟨a :: l1, l2, by rw [hdec]; simp, ?_, hpc⟩
        rw [List.filter_cons_of_pos hpa, hfil, h1]
    · rw [List.filter_cons_of_neg hpa] at h
      obtain ⟨l1, l2, hdec, hfil, hpc⟩ := ih l1f l2f c h
      refine ⟨a :: l1, l2, by rw [hdec]; simp, ?_, hpc⟩
      rw [List.filter_cons_of_neg hpa, hfil]

/-- Specification of `get_available_credential` when it returns `some c`: it is the first eligible
credential of minimal `in_use`; the split form below packages eligibility,
global minimality among eligible credentials, and the fact that every earlier
eligible credential is strictly more used. -/
theorem get_available_credential_spec (pool : List APICredential) (c : APICredential)
    (h : get_available_credential pool = some c) :
    c.in_use < c.max_users ∧
    (∀ d ∈ pool, d.in_use < d.max_users → c.in_use ≤ d.in_use) ∧
    ∃ l1 l2, pool = l1 ++ c :: l2 ∧
      ∀ d ∈ l1, d.in_use < d.max_users → c.in_use < d.in_use := by
  unfold get_available_credential at h
  cases hf : pool.filter (fun c => decide (c.in_use < c.max_users)) with
  | nil => rw [hf] at h; exact absurd h (by simp)
  | cons a cs =>
    rw [hf] at h
    simp only [Option.some.injEq] at h
    obtain ⟨l1f, l2f, hdec, hle, hlt⟩ := minByInUse_decomp cs a
    rw [h] at hdec hle hlt
    have hfsplit : pool.filter (fun c => decide (c.in_use < c.max_users)) = l1f ++ c :: l2f := by
      rw [hf]; exact hdec
    obtain ⟨l1, l2, hpool, hfil, hpc⟩ := filter_split pool l1f l2f c hfsplit
    refine ⟨by simpa using hpc, ?_, l1, l2, hpool, ?_⟩
    · intro d hd hd2
      have hdf : d ∈ pool.filter (fun c => decide (c.in_use < c.max_users)) :=
        List.mem_filter.mpr ⟨hd, by simpa using hd2⟩
      rw [hf] at hdf
      exact hle d hdf
    · intro d hd hd2
      have hdf : d ∈ l1.filter (fun c => decide (c.in_use < c.max_users)) :=
        List.mem_filter.mpr ⟨hd, by simpa using hd2⟩
      rw [hfil] at hdf
      exact hlt d hdf

/-- Specification of the none case: `get_available_credential` returns `none` exactly when no credential is
eligible (`in_use < max_users`). -/
theorem get_available_credential_none (pool : List APICredential) :
    get_available_credential pool = none ↔ ∀ c ∈ pool, ¬(c.in_use < c.max_users) := by
  unfold get_available_credential
  cases hf : pool.filter (fun c => decide (c.in_use < c.max_users)) with
  | nil =>
    simp only [true_iff]
    intro c hc hlt
    have : c ∈ pool.filter (fun c => decide (c.in_use < c.max_users)) :=
      List.mem_filter.mpr ⟨hc, by simpa using hlt⟩
    rw [hf] at this
    exact absurd this (by simp)
  | cons a cs =>
    simp only [reduceCtorEq, false_iff, not_forall]
    have ha : a ∈ pool.filter (fun c => decide (c.in_use < c.max_users)) := by
      rw [hf]; exact List.mem_cons_self a cs
    have := List.mem_filter.mp ha
    exact ⟨a, this.1, by simpa using this.2⟩

/-! ### Association-list embedding of Python dicts keyed by `user_id` -/

/-- Python `d.get(k)`. -/
def assocLookup {α : Type} (k : Nat) : List (Nat × α) → Option α
  | [] => none
  | (k2, v) :: rest => if k = k2 then some v else assocLookup k rest

/-- Python `d[k] = v`: overwrite in place or append. -/
def assocInsert {α : Type} (k : Nat) (v : α) : List (Nat × α) → List (Nat × α)
  | [] => [(k, v)]
  | (k2, v2) :: rest =>
    if k = k2 then (k, v) :: rest else (k2, v2) :: assocInsert k v rest

/-- Python `del d[k]`. -/
def assocErase {α : Type} (k : Nat) : List (Nat × α) → List (Nat × α)
  | [] => []
  | (k2, v2) :: rest =>
    if k = k2 then rest else (k2, v2) :: assocErase k rest

theorem assocLookup_insert {α : Type} (k k2 : Nat) (v : α) (l : List (Nat × α)) :
    assocLookup k (assocInsert k2 v l) =
      if k = k2 then some v else assocLookup k l := by
  induction l with
  | nil =>
    by_cases h : k = k2 <;> simp [assocInsert, assocLookup, h]
  | cons p rest ih =>
    obtain ⟨k3, v3⟩ := p
    by_cases h2 : k2 = k3
    · subst h2
      by_cases h : k = k2 <;> simp [assocInsert, assocLookup, h]
    · by_cases h : k = k3
      · subst h
        simp only [assocInsert, if_neg h2, assocLookup, if_pos rfl]
        have : ¬(k = k2) := fun he => h2 (he ▸ rfl)
        simp [this]
      · simp [assocInsert, if_neg h2, assocLookup, h, ih]

theorem assocLookup_erase {α : Type} (k k2 : Nat) (l : List (Nat × α))
    (hk : ¬ k = k2) : assocLookup k (assocErase k2 l) = assocLookup k l := by
  induction l with
  | nil => simp [assocErase]
  | cons p rest ih =>
    obtain ⟨k3, v3⟩ := p
    by_cases h2 : k2 = k3
    · subst h2
      simp [assocErase, assocLookup, if_neg hk]
    · by_cases h : k = k3
      · subst h
        simp [assocErase, if_neg h2, assocLookup]
      · simp [assocErase, if_neg h2, assocLookup, h, ih]

theorem assocLookup_eq_none_of_not_mem {α : Type} (k : Nat) (l : List (Nat × α))
    (h : ¬ k ∈ l.map Prod.fst) : assocLookup k l = none := by
  induction l with
  | nil => rfl
  | cons p rest ih =>
    obtain ⟨k2, v2⟩ := p
    simp only [List.map_cons, List.mem_cons] at h
    push_neg at h
    simp [assocLookup, h.1, ih h.2]

/-- With dict-like (nodup) keys, erasing a key makes it unfindable. -/
theorem assocLookup_erase_self {α : Type} (k : Nat) (l : List (Nat × α))
    (h : (l.map Prod.fst).Nodup) : assocLookup k (assocErase k l) = none := by
  induction l with
  | nil => rfl
  | cons p rest ih =>
    obtain ⟨k2, v2⟩ := p
    simp only [List.map_cons, List.nodup_cons] at h
    by_cases hk : k = k2
    · subst hk
      simp only [assocErase, if_pos rfl]
      exact assocLookup_eq_none_of_not_mem k rest h.1
    · simp [assocErase, hk, assocLookup, ih h.2]

theorem assocInsert_cons_self {α : Type} (k : Nat) (v v2 : α) (rest : List (Nat × α)) :
    assocInsert k v ((k, v2) :: rest) = (k, v) :: rest := by
  simp [assocInsert]

theorem assocInsert_cons_ne {α : Type} (k k2 : Nat) (v : α) (v2 : α)
    (rest : List (Nat × α)) (hk : ¬ k = k2) :
    assocInsert k v ((k2, v2) :: rest) = (k2, v2) :: assocInsert k v rest := by
  simp [assocInsert, hk]

theorem assocErase_cons_self {α : Type} (k : Nat) (v2 : α) (rest : List (Nat × α)) :
    assocErase k ((k, v2) :: rest) = rest := by
  simp [assocErase]

theorem assocErase_cons_ne {α : Type} (k k2 : Nat) (v2 : α)
    (rest : List (Nat × α)) (hk : ¬ k = k2) :
    assocErase k ((k2, v2) :: rest) = (k2, v2) :: assocErase k rest := by
  simp [assocErase, hk]

theorem assocInsert_mem_keys {α : Type} (x k : Nat) (v : α) (l : List (Nat × α)) :
    x ∈ (assocInsert k v l).map Prod.fst ↔ x = k ∨ x ∈ l.map Prod.fst := by
  induction l with
  | nil => simp [assocInsert]
  | cons p rest ih =>
    obtain ⟨k2, v2⟩ := p
    by_cases hk : k = k2
    · subst hk
      rw [assocInsert_cons_self]
      simp only [List.map_cons, List.mem_cons]
      tauto
    · rw [assocInsert_cons_ne k k2 v v2 rest hk]
      simp only [List.map_cons, List.mem_cons, ih]
      tauto

theorem assocInsert_keys_nodup {α : Type} (k : Nat) (v : α) (l : List (Nat × α))
    (h : (l.map Prod.fst).Nodup) : ((assocInsert k v l).map Prod.fst).Nodup := by
  induction l with
  | nil => simp [assocInsert]
  | cons p rest ih =>
    obtain ⟨k2, v2⟩ := p
    simp only [List.map_cons, List.nodup_cons] at h
    by_cases hk : k = k2
    · subst hk
      rw [assocInsert_cons_self]
      simp only [List.map_cons, List.nodup_cons]
      exact ⟨h.1, h.2⟩
    · rw [assocInsert_cons_ne k k2 v v2 rest hk]
      simp only [List.map_cons, List.nodup_cons]
      refine ⟨?_, ih h.2⟩
      rw [assocInsert_mem_keys]
      push_neg
      exact ⟨fun he => hk he.symm, h.1⟩

theorem assocInsert_keys_of_lookup {α : Type} (k : Nat) (v v0 : α) (l : List (Nat × α))
    (h : assocLookup k l = some v0) :
    (assocInsert k v l).map Prod.fst = l.map Prod.fst := by
  induction l with
  | nil => exact absurd h (by simp [assocLookup])
  | cons p rest ih =>
    obtain ⟨k2, v2⟩ := p
    by_cases hk : k = k2
    · subst hk
      rw [assocInsert_cons_self]
      simp
    · simp only [assocLookup, if_neg hk] at h
      rw [assocInsert_cons_ne k k2 v v2 rest hk]
      simp [ih h]

theorem assocErase_keys_sub {α : Type} (x k : Nat) (l : List (Nat × α))
    (h : x ∈ (assocErase k l).map Prod.fst) : x ∈ l.map Prod.fst := by
  induction l with
  | nil => exact h
  | cons p rest ih =>
    obtain ⟨k2, v2⟩ := p
    by_cases hk : k = k2
    · subst hk
      rw [assocErase_cons_self] at h
      simp only [List.map_cons, List.mem_cons]
      exact Or.inr h
    · rw [assocErase_cons_ne k k2 v2 rest hk] at h
      simp only [List.map_cons, List.mem_cons] at h ⊢
      rcases h with h | h
      · exact Or.inl h
      · exact Or.inr (ih h)

theorem assocErase_keys_nodup {α : Type} (k : Nat) (l : List (Nat × α))
    (h : (l.map Prod.fst).Nodup) : ((assocErase k l).map Prod.fst).Nodup := by
  induction l with
  | nil => exact h
  | cons p rest ih =>
    obtain ⟨k2, v2⟩ := p
    simp only [List.map_cons, List.nodup_cons] at h
    by_cases hk : k = k2
    · subst hk
      rw [assocErase_cons_self]
      exact h.2
    · rw [assocErase_cons_ne k k2 v2 rest hk]
      simp only [List.map_cons, List.nodup_cons]
      exact ⟨fun hm => h.1 (assocErase_keys_sub k2 k rest hm), ih h.2⟩

theorem contains_filter_ne_self (l : List Nat) (u : Nat) :
    (l.filter (fun x => decide (¬ x = u))).contains u = false := by
  induction l with
  | nil => rfl
  | cons a rest ih =>
    by_cases ha : a = u
    · subst ha
      have he : List.filter (fun x => decide (¬ x = a)) (a :: rest) =
          List.filter (fun x => decide (¬ x = a)) rest := by
        simp [List.filter_cons]
      rw [he, ih]
    · have he : List.filter (fun x => decide (¬ x = u)) (a :: rest) =
          a :: List.filter (fun x => decide (¬ x = u)) rest := by
        simp [List.filter_cons, ha]
      rw [he]
      simp only [List.contains_cons, ih, Bool.or_false, beq_eq_false_iff_ne, ne_eq]
      exact fun he2 => ha he2.symm

/-! ### HostManager (host_manager.py) -/

/-- Embedding of `UserInstance` of host_manager.py.  `credIdx` is the pool position of the
`api_credential` object the instance holds a reference to (see the module
comment on object identity). -/
structure UserInstance where
  user_id : Nat
  phone : String
  credIdx : Nat
  process_id : Option Nat
  status : String
  created_at : Int
  last_activity : Int
  session_path : String
  config_path : String
deriving DecidableEq

/-- The distinct failure paths of `HostManager.create_user_instance`, in
source order: duplicate tenant (logged "already has an instance"), exhausted
pool (logged "No available API credentials"), failed allocation (logged
"Failed to allocate API credential").  The Python function collapses all of
them to `False`; the embedding keeps the branch so statements can tell the
reasons apart. -/
inductive CreateResult
  | ok
  | duplicateTenant
  | resourceExhausted
  | allocFailed
deriving DecidableEq

/-- View of `CreateResult` as the boolean the Python function actually returns. -/
def CreateResult.toBool : CreateResult → Bool
  | CreateResult.ok => true
  | _ => false

/-- In-memory state of a `HostManager`: the credential pool
(`api_pool.credentials`), the tenant registry (`user_instances`) and the set
of tenant ids whose `user_instances/user_<id>` directory exists on disk. -/
structure HostManager where
  pool : List APICredential
  user_instances : List (Nat × UserInstance)
  envDirs : List Nat
deriving DecidableEq

/-- Path produced by `UserIsolator.create_user_config` for a tenant. -/
def userConfigPath (user_id : Nat) : String :=
  "user_instances/user_" ++ toString user_id ++ "/.env"

/-- Session directory recorded by `create_user_instance`. -/
def userSessionPath (user_id : Nat) : String :=
  "user_instances/user_" ++ toString user_id ++ "/sessions"

/-- Embedding of `HostManager.create_user_instance`: reject duplicates, pick the least
used credential, allocate it, materialize the environment and config, then
record and persist the new instance. -/
def create_user_instance (m : HostManager) (user_id : Nat) (phone : String)
    (now : Int) : CreateResult × HostManager :=
  match assocLookup user_id m.user_instances with
  | some _ => (CreateResult.duplicateTenant, m)
  | none =>
    match get_available_index m.pool with
    | none => (CreateResult.resourceExhausted, m)
    | some i =>
      match allocate_credential m.pool i now with
      | (false, _) => (CreateResult.allocFailed, m)
      | (true, pool1) =>
        let inst : UserInstance :=
          { user_id := user_id
            phone := phone
            credIdx := i
            process_id := none
            status := "inactive"
            created_at := now
            last_activity := 0
            session_path := userSessionPath user_id
            config_path := userConfigPath user_id }
        (CreateResult.ok,
          { pool := pool1
            user_instances := assocInsert user_id inst m.user_instances
            envDirs := if m.envDirs.contains user_id then m.envDirs else user_id :: m.envDirs })

/-- Embedding of `HostManager.start_user_bot`: unknown tenant fails; an already active
tenant is a success no-op; otherwise a worker process is spawned (its pid is
an input of the model) and recorded.  The returned list holds the pids
spawned by the call. -/
def start_user_bot (m : HostManager) (user_id : Nat) (now : Int) (newPid : Nat) :
    Bool × HostManager × List Nat :=
  match assocLookup user_id m.user_instances with
  | none => (false, m, [])
  | some inst =>
    if inst.status = "active" then (true, m, [])
    else
      let inst2 := { inst with process_id := some newPid, status := "active", last_activity := now }
      (true, { m with user_instances := assocInsert user_id inst2 m.user_instances }, [newPid])

/-- Embedding of `HostManager.stop_user_bot`: missing or non-active tenant is a success
no-op; otherwise signal the process, mark the instance inactive, clear the
pid and persist. -/
def stop_user_bot (m : HostManager) (user_id : Nat) : Bool × HostManager :=
  match assocLookup user_id m.user_instances with
  | none => (true, m)
  | some inst =>
    if inst.status = "active" then
      let inst2 := { inst with status := "inactive", process_id := none }
      (true, { m with user_instances := assocInsert user_id inst2 m.user_instances })
    else (true, m)

/-- The externally visible steps `remove_user_instance` performs, in order. -/
inductive MgrStep
  | stopBot
  | releaseCred
  | removeRegistryEntry
  | destroyEnv
deriving DecidableEq

/-- Embedding of `HostManager.remove_user_instance`: stop the bot, then (when the tenant
is registered) release its credential and delete + persist the registry
entry, then remove the on-disk directory when it exists.  The step list
records the order in which these effects happen in the source. -/
def remove_user_instance (m : HostManager) (user_id : Nat) :
    Bool × HostManager × List MgrStep :=
  let m1 := (stop_user_bot m user_id).2
  match assocLookup user_id m1.user_instances with
  | some inst =>
    let pool2 := (release_credential m1.pool inst.credIdx).2
    let m2 : HostManager :=
      { pool := pool2
        user_instances := assocErase user_id m1.user_instances
        envDirs := m1.envDirs }
    if m2.envDirs.contains user_id then
      (true, { m2 with envDirs := m2.envDirs.filter (fun u => decide (¬ u = user_id)) },
        [MgrStep.stopBot, MgrStep.releaseCred, MgrStep.removeRegistryEntry, MgrStep.destroyEnv])
    else
      (true, m2, [MgrStep.stopBot, MgrStep.releaseCred, MgrStep.removeRegistryEntry])
  | none =>
    if m1.envDirs.contains user_id then
      (true, { m1 with envDirs := m1.envDirs.filter (fun u => decide (¬ u = user_id)) },
        [MgrStep.stopBot, MgrStep.destroyEnv])
    else
      (true, m1, [MgrStep.stopBot])

/-! ### TelegramSessionManager (session_manager.py) -/

/-- Embedding of `AuthSession` of session_manager.py.  `status` keeps the Python string
values: "pending", "code_sent", "password_required", "authenticated",
"error". -/
structure AuthSession where
  user_id : Nat
  phone : String
  api_id : Int
  api_hash : String
  session_file : String
  status : String
  code_hash : Option String
  created_at : Int
  expires_at : Int
deriving DecidableEq

/-- State of a `TelegramSessionManager`: the auth sessions keyed by user id,
and the set of user ids holding a stored `TelegramClient`. -/
structure SMState where
  active_sessions : List (Nat × AuthSession)
  authenticated_clients : List Nat
deriving DecidableEq

/-- Structured result every session-manager call returns. -/
structure ApiResponse where
  success : Bool
  status : String
  message : String
deriving DecidableEq

/-- Outcomes of the provider calls `start_authentication` performs, exactly
the cases the source distinguishes: already authorized, code sent
successfully, `PhoneNumberInvalidError`, or any other exception (modelled as
failing before the code request). -/
inductive StartOutcome
  | alreadyAuthorized
  | codeSent (phone_code_hash : String)
  | phoneInvalid
  | exn
deriving DecidableEq

/-- Outcomes of `client.sign_in` inside `verify_code`: success,
`SessionPasswordNeededError`, `PhoneCodeInvalidError`, or any other
exception. -/
inductive SignInResult
  | ok
  | passwordNeeded
  | codeInvalid
  | exn
deriving DecidableEq

/-- Provider interactions performed by a session-manager call, in order. -/
inductive ProviderEvent
  | sendCode (phone : String)
  | signInCode (code : String)
  | signInPassword (password : String)
deriving DecidableEq

/-- Insert a user id into a client set (Python dict insert, keyed set). -/
def clientInsert (uid : Nat) (l : List Nat) : List Nat :=
  if l.contains uid then l else uid :: l

/-- Session file path used by `start_authentication`. -/
def sessionFilePath (user_id : Nat) : String :=
  "user_instances/user_" ++ toString user_id ++ "/sessions/telegram_session"

/-- Embedding of `TelegramSessionManager.start_authentication`.  On a sent code it stores a
fresh session in status "code_sent" with `expires_at = now + 300` and keeps
the client; when the provider reports the user as already authorized it only
stores the client; provider errors leave the state unchanged. -/
def start_authentication (st : SMState) (user_id : Nat) (phone : String)
    (api_id : Int) (api_hash : String) (now : Int) (o : StartOutcome) :
    ApiResponse × SMState × List ProviderEvent :=
  match o with
  | StartOutcome.alreadyAuthorized =>
    (⟨true, "already_authenticated", "User is already authenticated"⟩,
      { st with authenticated_clients := clientInsert user_id st.authenticated_clients },
      [])
  | StartOutcome.codeSent h =>
    let s : AuthSession :=
      { user_id := user_id
        phone := phone
        api_id := api_id
        api_hash := api_hash
        session_file := sessionFilePath user_id
        status := "code_sent"
        code_hash := some h
        created_at := now
        expires_at := now + 300 }
    (⟨true, "code_sent", "Verification code sent to " ++ phone⟩,
      { active_sessions := assocInsert user_id s st.active_sessions
        authenticated_clients := clientInsert user_id st.authenticated_clients },
      [ProviderEvent.sendCode phone])
  | StartOutcome.phoneInvalid =>
    (⟨false, "error", "Invalid phone number format"⟩, st, [ProviderEvent.sendCode phone])
  | StartOutcome.exn =>
    (⟨false, "error", "Authentication error"⟩, st, [])

/-- Embedding of `TelegramSessionManager.verify_code`.  Missing session, lazy expiry
(`time.time() > expires_at` deletes the session), missing client, then the
four `sign_in` outcomes; only success and `SessionPasswordNeededError` mutate
the stored session. -/
def verify_code (st : SMState) (user_id : Nat) (code : String) (now : Int)
    (r : SignInResult) : ApiResponse × SMState × List ProviderEvent :=
  match assocLookup user_id st.active_sessions with
  | none => (⟨false, "error", "No active authentication session"⟩, st, [])
  | some s =>
    if s.expires_at < now then
      (⟨false, "error", "Authentication session expired"⟩,
        { st with active_sessions := assocErase user_id st.active_sessions }, [])
    else if st.authenticated_clients.contains user_id then
      match r with
      | SignInResult.ok =>
        (⟨true, "authenticated", "Authentication successful"⟩,
          { st with active_sessions :=
              assocInsert user_id { s with status := "authenticated" } st.active_sessions },
          [ProviderEvent.signInCode code])
      | SignInResult.passwordNeeded =>
        (⟨false, "password_required", "Two-factor authentication password required"⟩,
          { st with active_sessions :=
              assocInsert user_id { s with status := "password_required" } st.active_sessions },
          [ProviderEvent.signInCode code])
      | SignInResult.codeInvalid =>
        (⟨false, "error", "Invalid verification code"⟩, st, [ProviderEvent.signInCode code])
      | SignInResult.exn =>
        (⟨false, "error", "Verification error"⟩, st, [ProviderEvent.signInCode code])
    else (⟨false, "error", "Client not found"⟩, st, [])

/-- Embedding of `TelegramSessionManager.verify_password`.  Requires a stored session in
status "password_required" and a stored client, then calls
`client.sign_in(password=...)`; note the source performs no `expires_at`
check here (the `now` argument is deliberately unread, like `time.time()`
never being consulted).  Success marks the session "authenticated". -/
def verify_password (st : SMState) (user_id : Nat) (password : String)
    (now : Int) (ok : Bool) : ApiResponse × SMState × List ProviderEvent :=
  match assocLookup user_id st.active_sessions with
  | none => (⟨false, "error", "No password verification required"⟩, st, [])
  | some s =>
    if s.status = "password_required" then
      if st.authenticated_clients.contains user_id then
        if ok then
          (⟨true, "authenticated", "Two-factor authentication successful"⟩,
            { st with active_sessions :=
                assocInsert user_id { s with status := "authenticated" } st.active_sessions },
            [ProviderEvent.signInPassword password])
        else
          (⟨false, "error", "Password verification error"⟩, st,
            [ProviderEvent.signInPassword password])
      else (⟨false, "error", "Client not found"⟩, st, [])
    else (⟨false, "error", "No password verification required"⟩, st, [])

/-- The authentication operations of the session manager, with the provider
outcome each carries. -/
inductive SMOp
  | start (user_id : Nat) (phone : String) (api_id : Int) (api_hash : String)
      (now : Int) (o : StartOutcome)
  | vcode (user_id : Nat) (code : String) (now : Int) (r : SignInResult)
  | vpass (user_id : Nat) (password : String) (now : Int) (ok : Bool)
deriving DecidableEq

/-- State effect of one authentication operation. -/
def smApply (st : SMState) : SMOp → SMState
  | SMOp.start uid phone api_id api_hash now o =>
    (start_authentication st uid phone api_id api_hash now o).2.1
  | SMOp.vcode uid code now r => (verify_code st uid code now r).2.1
  | SMOp.vpass uid pw now ok => (verify_password st uid pw now ok).2.1

/-- Run a sequence of authentication operations from a state. -/
def smRun (st : SMState) (ops : List SMOp) : SMState :=
  ops.foldl smApply st

/-- The initial manager state (`TelegramSessionManager.__init__`). -/
def smInit : SMState := ⟨[], []⟩

/-! ### SecurityManager.cleanup_user_data (security_manager.py) -/

/-- A regular file in the environment subtree of a tenant: its path and its byte
content. -/
structure TenantFile where
  path : String
  content : List Nat
deriving DecidableEq

/-- Filesystem effects of `cleanup_user_data`, in order. -/
inductive FsEvent
  | overwrite (path : String) (bytes : List Nat)
  | removeTree (user_id : Nat)
deriving DecidableEq

/-- Embedding of `SecurityManager.cleanup_user_data`: missing directory is a success no-op;
otherwise with `secure_delete` every regular file of the subtree
(`user_path.rglob` filtered by `is_file`) is overwritten with
`secrets.token_bytes(file_size)` — modelled by the byte source `rand`, which
maps a length to the bytes produced — and then the whole subtree is removed
(`shutil.rmtree`).  The filesystem is modelled as the map from tenant id to
the regular files under the directory of that tenant. -/
def cleanup_user_data (tenants : List (Nat × List TenantFile)) (user_id : Nat)
    (secure_delete : Bool) (rand : Nat → List Nat) :
    Bool × List (Nat × List TenantFile) × List FsEvent :=
  match assocLookup user_id tenants with
  | none => (true, tenants, [])
  | some files =>
    let evs :=
      if secure_delete then
        files.map (fun f => FsEvent.overwrite f.path (rand f.content.length))
      else []
    (true, assocErase user_id tenants, evs ++ [FsEvent.removeTree user_id])

/-! ## Claims -/

/-- C1: starting from any pool in which every credential satisfies
`0 ≤ in_use ≤ max_users`, any sequence of `allocate_credential` /
`release_credential` calls preserves the invariant; and the remaining pool
operations (`get_available_credential`, `save_credentials`) do not change any
credential at all. -/
theorem c1_pool_invariant (pool : List APICredential) (ops : List PoolOp)
    (h : ∀ c ∈ pool, credInv c) :
    (∀ c ∈ applyPoolOps pool ops, credInv c) ∧
    applyPoolOp pool PoolOp.getAvailable = pool ∧
    applyPoolOp pool PoolOp.save = pool :=
  ⟨applyPoolOps_preserves_credInv ops pool h, rfl, rfl⟩

theorem c1_pool_invariant_witness :
    (∀ c ∈ applyPoolOps [⟨12345, "hash", "ASCL_App_1", 0, 1, 0, 0⟩]
        [PoolOp.alloc 0 5, PoolOp.alloc 0 6, PoolOp.release 0, PoolOp.release 0,
         PoolOp.release 0, PoolOp.alloc 0 7], credInv c) ∧
    (∀ c ∈ ([⟨12345, "hash", "ASCL_App_1", 0, 1, 0, 0⟩] : List APICredential), credInv c) :=
  ⟨(c1_pool_invariant [⟨12345, "hash", "ASCL_App_1", 0, 1, 0, 0⟩]
      [PoolOp.alloc 0 5, PoolOp.alloc 0 6, PoolOp.release 0, PoolOp.release 0,
       PoolOp.release 0, PoolOp.alloc 0 7] (by decide)).1, by decide⟩

/-- C5: `get_available_credential` returns `none` exactly when no credential
has `in_use < max_users`; and any returned credential is eligible, of minimal
`in_use` among the eligible, and is the first credential in stable pool order
achieving that minimum (every eligible credential before it is strictly more
used). -/
theorem c5_get_available (pool : List APICredential) :
    (get_available_credential pool = none ↔ ∀ c ∈ pool, ¬(c.in_use < c.max_users)) ∧
    ∀ c, get_available_credential pool = some c →
      c.in_use < c.max_users ∧
      (∀ d ∈ pool, d.in_use < d.max_users → c.in_use ≤ d.in_use) ∧
      ∃ l1 l2, pool = l1 ++ c :: l2 ∧
        ∀ d ∈ l1, d.in_use < d.max_users → c.in_use < d.in_use :=
  ⟨get_available_credential_none pool,
   fun c h => get_available_credential_spec pool c h⟩

theorem c5_get_available_witness :
    (⟨2, "b", "B", 3, 10, 0, 0⟩ : APICredential).in_use <
      (⟨2, "b", "B", 3, 10, 0, 0⟩ : APICredential).max_users ∧
    (∀ d ∈ ([⟨1, "a", "A", 5, 5, 0, 0⟩, ⟨2, "b", "B", 3, 10, 0, 0⟩,
        ⟨3, "c", "C", 3, 10, 0, 0⟩] : List APICredential), d.in_use < d.max_users →
      (⟨2, "b", "B", 3, 10, 0, 0⟩ : APICredential).in_use ≤ d.in_use) :=
  ⟨((c5_get_available [⟨1, "a", "A", 5, 5, 0, 0⟩, ⟨2, "b", "B", 3, 10, 0, 0⟩,
      ⟨3, "c", "C", 3, 10, 0, 0⟩]).2 ⟨2, "b", "B", 3, 10, 0, 0⟩ (by decide)).1,
   ((c5_get_available [⟨1, "a", "A", 5, 5, 0, 0⟩, ⟨2, "b", "B", 3, 10, 0, 0⟩,
      ⟨3, "c", "C", 3, 10, 0, 0⟩]).2 ⟨2, "b", "B", 3, 10, 0, 0⟩ (by decide)).2.1⟩

/-- C4: `create_user_instance` for a `user_id` that already has an instance
returns the duplicate-tenant failure (`False` in the source) and the whole
manager state — the existing record, the credential counters, the entire pool
— is returned unchanged. -/
theorem c4_duplicate_create (m : HostManager) (user_id : Nat) (phone : String)
    (now : Int) (inst : UserInstance)
    (h : assocLookup user_id m.user_instances = some inst) :
    create_user_instance m user_id phone now = (CreateResult.duplicateTenant, m) ∧
    CreateResult.duplicateTenant.toBool = false := by
  refine ⟨?_, rfl⟩
  unfold create_user_instance
  rw [h]

theorem c4_duplicate_create_witness :
    create_user_instance
        ⟨[⟨12345, "hash", "ASCL_App_1", 1, 1, 0, 0⟩],
         [(1, ⟨1, "+1000", 0, none, "inactive", 0, 0, userSessionPath 1, userConfigPath 1⟩)],
         [1]⟩ 1 "+1000" 99 =
      (CreateResult.duplicateTenant,
        ⟨[⟨12345, "hash", "ASCL_App_1", 1, 1, 0, 0⟩],
         [(1, ⟨1, "+1000", 0, none, "inactive", 0, 0, userSessionPath 1, userConfigPath 1⟩)],
         [1]⟩) :=
  (c4_duplicate_create
    ⟨[⟨12345, "hash", "ASCL_App_1", 1, 1, 0, 0⟩],
     [(1, ⟨1, "+1000", 0, none, "inactive", 0, 0, userSessionPath 1, userConfigPath 1⟩)],
     [1]⟩ 1 "+1000" 99
    ⟨1, "+1000", 0, none, "inactive", 0, 0, userSessionPath 1, userConfigPath 1⟩
    (by decide)).1

/-- C10: for a `user_id` with no registry entry at all, `stop_user_bot`
returns success with the whole state untouched, and `start_user_bot` returns
failure, spawns nothing and also leaves the state untouched. -/
theorem c10_unregistered_stop_start (m : HostManager) (user_id : Nat)
    (now : Int) (newPid : Nat)
    (h : assocLookup user_id m.user_instances = none) :
    stop_user_bot m user_id = (true, m) ∧
    start_user_bot m user_id now newPid = (false, m, []) := by
  unfold stop_user_bot start_user_bot
  rw [h]
  exact ⟨rfl, rfl⟩

theorem c10_unregistered_stop_start_witness :
    stop_user_bot ⟨[⟨12345, "hash", "ASCL_App_1", 1, 1, 0, 0⟩],
        [(1, ⟨1, "+1000", 0, none, "active", 0, 0, userSessionPath 1, userConfigPath 1⟩)],
        [1]⟩ 2 =
      (true, ⟨[⟨12345, "hash", "ASCL_App_1", 1, 1, 0, 0⟩],
        [(1, ⟨1, "+1000", 0, none, "active", 0, 0, userSessionPath 1, userConfigPath 1⟩)],
        [1]⟩) ∧
    start_user_bot ⟨[⟨12345, "hash", "ASCL_App_1", 1, 1, 0, 0⟩],
        [(1, ⟨1, "+1000", 0, none, "active", 0, 0, userSessionPath 1, userConfigPath 1⟩)],
        [1]⟩ 2 50 777 =
      (false, ⟨[⟨12345, "hash", "ASCL_App_1", 1, 1, 0, 0⟩],
        [(1, ⟨1, "+1000", 0, none, "active", 0, 0, userSessionPath 1, userConfigPath 1⟩)],
        [1]⟩, []) :=
  c10_unregistered_stop_start
    ⟨[⟨12345, "hash", "ASCL_App_1", 1, 1, 0, 0⟩],
     [(1, ⟨1, "+1000", 0, none, "active", 0, 0, userSessionPath 1, userConfigPath 1⟩)],
     [1]⟩ 2 50 777 (by decide)

/-- The end-to-end scenario manager of C6: an empty registry over a pool with
one credential of capacity 1 (tenant "A" is user id 1, tenant "B" user
id 2). -/
def scenarioM0 : HostManager :=
  ⟨[⟨12345, "hash", "ASCL_App_1", 0, 1, 0, 0⟩], [], []⟩

/-- C6: on a single credential of `max_users = 1`, creating tenant 1
succeeds (`in_use = 1`), creating tenant 2 then fails with resource
exhaustion and mutates nothing, deleting tenant 1 succeeds (`in_use = 0`),
after which creating tenant 2 succeeds (`in_use = 1`). -/
theorem c6_scenario :
    (create_user_instance scenarioM0 1 "+1000" 10).1 = CreateResult.ok ∧
    ((create_user_instance scenarioM0 1 "+1000" 10).2.pool.map APICredential.in_use = [1]) ∧
    (create_user_instance (create_user_instance scenarioM0 1 "+1000" 10).2 2 "+2000" 20).1 =
      CreateResult.resourceExhausted ∧
    (create_user_instance (create_user_instance scenarioM0 1 "+1000" 10).2 2 "+2000" 20).2 =
      (create_user_instance scenarioM0 1 "+1000" 10).2 ∧
    (remove_user_instance (create_user_instance scenarioM0 1 "+1000" 10).2 1).1 = true ∧
    ((remove_user_instance (create_user_instance scenarioM0 1 "+1000" 10).2 1).2.1.pool.map
      APICredential.in_use = [0]) ∧
    (create_user_instance
      (remove_user_instance (create_user_instance scenarioM0 1 "+1000" 10).2 1).2.1
      2 "+2000" 30).1 = CreateResult.ok ∧
    ((create_user_instance
      (remove_user_instance (create_user_instance scenarioM0 1 "+1000" 10).2 1).2.1
      2 "+2000" 30).2.pool.map APICredential.in_use = [1]) := by
  decide

/-- A registered tenant (id 1, holding the only credential, with its
environment directory on disk) used to exhibit the actual step order of
`remove_user_instance`. -/
def removeM0 : HostManager :=
  ⟨[⟨12345, "hash", "ASCL_App_1", 1, 1, 0, 0⟩],
   [(1, ⟨1, "+1000", 0, none, "inactive", 0, 0, userSessionPath 1, userConfigPath 1⟩)],
   [1]⟩

/-- C2 counterexample: for a registered tenant, `remove_user_instance`
performs stop, release, registry-entry removal, and only then environment
destruction — not the claimed stop, release, destroy-environment,
registry-entry removal order. -/
theorem c2_counterexample :
    (remove_user_instance removeM0 1).2.2 =
      [MgrStep.stopBot, MgrStep.releaseCred, MgrStep.removeRegistryEntry,
        MgrStep.destroyEnv] ∧
    ¬ (remove_user_instance removeM0 1).2.2 =
      [MgrStep.stopBot, MgrStep.releaseCred, MgrStep.destroyEnv,
        MgrStep.removeRegistryEntry] := by
  decide

/-- Frame lemma: `stop_user_bot` changes at most the `status` and
`process_id`: the pool and environment directories are untouched, a
registered tenant stays registered with the same `credIdx`, and the registry
keys are unchanged. -/
theorem stop_user_bot_state (m : HostManager) (user_id : Nat) (inst : UserInstance)
    (h : assocLookup user_id m.user_instances = some inst) :
    (stop_user_bot m user_id).2.pool = m.pool ∧
    (stop_user_bot m user_id).2.envDirs = m.envDirs ∧
    (stop_user_bot m user_id).2.user_instances.map Prod.fst =
      m.user_instances.map Prod.fst ∧
    ∃ inst2, assocLookup user_id (stop_user_bot m user_id).2.user_instances = some inst2 ∧
      inst2.credIdx = inst.credIdx := by
  unfold stop_user_bot
  rw [h]
  by_cases hact : inst.status = "active"
  · simp only [if_pos hact]
    refine ⟨trivial, trivial, ?_, ?_⟩
    · exact assocInsert_keys_of_lookup user_id _ inst m.user_instances h
    · refine ⟨{ inst with status := "inactive", process_id := none }, ?_, rfl⟩
      rw [assocLookup_insert]
      simp
  · simp only [if_neg hact]
    exact ⟨trivial, trivial, trivial, inst, h, rfl⟩

/-- C2 (amended): for a registered tenant whose credential is allocated and
whose environment directory exists, `remove_user_instance` performs stop,
then credential release, then registry-entry removal, then environment
destruction — in that order — and it reports success only with the tenant
credential released: afterwards the tenant is no longer registered, the
`in_use` counter of its credential has dropped by one, and the environment directory is
gone. -/
theorem c2_remove_user_instance (m : HostManager) (user_id : Nat)
    (inst : UserInstance) (c : APICredential)
    (hnodup : (m.user_instances.map Prod.fst).Nodup)
    (hreg : assocLookup user_id m.user_instances = some inst)
    (hcred : m.pool[inst.credIdx]? = some c)
    (huse : 0 < c.in_use)
    (henv : m.envDirs.contains user_id = true) :
    (remove_user_instance m user_id).1 = true ∧
    (remove_user_instance m user_id).2.2 =
      [MgrStep.stopBot, MgrStep.releaseCred, MgrStep.removeRegistryEntry,
        MgrStep.destroyEnv] ∧
    assocLookup user_id (remove_user_instance m user_id).2.1.user_instances = none ∧
    (remove_user_instance m user_id).2.1.pool[inst.credIdx]? =
      some { c with in_use := c.in_use - 1 } ∧
    (remove_user_instance m user_id).2.1.envDirs.contains user_id = false := by
  obtain ⟨hpool, henvd, hkeys, inst2, hl2, hcidx⟩ := stop_user_bot_state m user_id inst hreg
  have hidx : inst.credIdx < m.pool.length := by
    rcases List.getElem?_eq_some_iff.mp hcred with ⟨hlt, _⟩
    exact hlt
  have hrel : release_credential (stop_user_bot m user_id).2.pool inst2.credIdx =
      (true, m.pool.set inst.credIdx { c with in_use := c.in_use - 1 }) := by
    rw [hpool, hcidx]
    unfold release_credential
    rw [hcred]
    simp [huse]
  have hnodup1 : ((stop_user_bot m user_id).2.user_instances.map Prod.fst).Nodup := by
    rw [hkeys]; exact hnodup
  have henv1 : (stop_user_bot m user_id).2.envDirs.contains user_id = true := by
    rw [henvd]; exact henv
  simp only [remove_user_instance]
  rw [hl2]
  simp only [hrel, henv1, if_pos]
  refine ⟨trivial, trivial, ?_, ?_, ?_⟩
  · exact assocLookup_erase_self user_id _ hnodup1
  · exact List.getElem?_set_self hidx
  · exact contains_filter_ne_self _ user_id

theorem c2_remove_user_instance_witness :
    (remove_user_instance removeM0 1).1 = true ∧
    assocLookup 1 (remove_user_instance removeM0 1).2.1.user_instances = none ∧
    (remove_user_instance removeM0 1).2.1.pool[0]? =
      some { (⟨12345, "hash", "ASCL_App_1", 1, 1, 0, 0⟩ : APICredential) with in_use := 0 } := by
  have h := c2_remove_user_instance removeM0 1
    ⟨1, "+1000", 0, none, "inactive", 0, 0, userSessionPath 1, userConfigPath 1⟩
    ⟨12345, "hash", "ASCL_App_1", 1, 1, 0, 0⟩
    (by decide) (by decide) (by decide) (by decide) (by decide)
  exact ⟨h.1, h.2.2.1, h.2.2.2.1⟩

/-- An expired two-factor session: status "password_required" with
`expires_at = 100`, client stored. -/
def expiredPRState : SMState :=
  ⟨[(7, ⟨7, "+7000", 12345, "hash", sessionFilePath 7, "password_required",
      some "ch", 0, 100⟩)], [7]⟩

/-- C3 counterexample: at time 1000, well past the session deadline
`expires_at = 100`, `verify_password` still accepts the password: it returns
success, does not transition the session to any expired state, and does not
discard it — `verify_password` has no expiry check. -/
theorem c3_counterexample :
    (100 : Int) < 1000 ∧
    (verify_password expiredPRState 7 "pw" 1000 true).1.success = true ∧
    ¬ assocLookup 7 (verify_password expiredPRState 7 "pw" 1000 true).2.1.active_sessions
        = none := by
  decide

/-- C3 (amended): a `verify_code` call on a session whose `expires_at` has
passed is rejected with an error response ("Authentication session expired"),
sends nothing to the provider, and the session is deleted so the caller must
restart; `verify_password` performs no such expiry check. -/
theorem c3_verify_code_expired (st : SMState) (user_id : Nat) (code : String)
    (now : Int) (r : SignInResult) (s : AuthSession)
    (hs : assocLookup user_id st.active_sessions = some s)
    (hexp : s.expires_at < now) :
    (verify_code st user_id code now r).1 =
      ⟨false, "error", "Authentication session expired"⟩ ∧
    (verify_code st user_id code now r).2.1.active_sessions =
      assocErase user_id st.active_sessions ∧
    (verify_code st user_id code now r).2.2 = [] := by
  unfold verify_code
  rw [hs]
  simp [hexp]

theorem c3_verify_code_expired_witness :
    (verify_code expiredPRState 7 "123456" 1000 SignInResult.ok).1 =
      ⟨false, "error", "Authentication session expired"⟩ ∧
    (verify_code expiredPRState 7 "123456" 1000 SignInResult.ok).2.1.active_sessions = [] := by
  have h := c3_verify_code_expired expiredPRState 7 "123456" 1000 SignInResult.ok
    ⟨7, "+7000", 12345, "hash", sessionFilePath 7, "password_required", some "ch", 0, 100⟩
    (by decide) (by decide)
  refine ⟨h.1, ?_⟩
  rw [h.2.1]
  decide

/-- C8: `verify_code` with an incorrect code (`PhoneCodeInvalidError`) on a
non-expired session in status "code_sent" returns failure, leaves the whole
session-manager state — hence every session field, status and deadline
included — unchanged, and sends no new code to the provider. -/
theorem c8_wrong_code_frame (st : SMState) (user_id : Nat) (code : String)
    (now : Int) (s : AuthSession)
    (hs : assocLookup user_id st.active_sessions = some s)
    (hstatus : s.status = "code_sent")
    (hexp : ¬ s.expires_at < now) :
    (verify_code st user_id code now SignInResult.codeInvalid).1.success = false ∧
    (verify_code st user_id code now SignInResult.codeInvalid).2.1 = st ∧
    ∀ p, ¬ ProviderEvent.sendCode p ∈
      (verify_code st user_id code now SignInResult.codeInvalid).2.2 := by
  unfold verify_code
  rw [hs]
  by_cases hc : user_id ∈ st.authenticated_clients <;>
    simp [hexp, hc]

/-- A live (non-expired at time 50) code_sent session for tenant 9. -/
def liveCodeSentState : SMState :=
  ⟨[(9, ⟨9, "+9000", 12345, "hash", sessionFilePath 9, "code_sent",
      some "ch", 0, 300⟩)], [9]⟩

theorem c8_wrong_code_frame_witness :
    (verify_code liveCodeSentState 9 "000000" 50 SignInResult.codeInvalid).1.success = false ∧
    (verify_code liveCodeSentState 9 "000000" 50 SignInResult.codeInvalid).2.1 =
      liveCodeSentState :=
  let h := c8_wrong_code_frame liveCodeSentState 9 "000000" 50
    ⟨9, "+9000", 12345, "hash", sessionFilePath 9, "code_sent", some "ch", 0, 300⟩
    (by decide) (by decide) (by decide)
  ⟨h.1, h.2.1⟩

/-- C9: `cleanup_user_data` with secure deletion, for a tenant whose
directory exists, succeeds; afterwards the subtree is gone; the effect trace
is exactly one overwrite per regular file — with bytes from the random
source, of the same length as the file, in file order — followed by the
subtree removal. -/
theorem c9_cleanup_secure (tenants : List (Nat × List TenantFile)) (user_id : Nat)
    (rand : Nat → List Nat) (files : List TenantFile)
    (hnodup : (tenants.map Prod.fst).Nodup)
    (hrand : ∀ n, (rand n).length = n)
    (hdir : assocLookup user_id tenants = some files) :
    (cleanup_user_data tenants user_id true rand).1 = true ∧
    assocLookup user_id (cleanup_user_data tenants user_id true rand).2.1 = none ∧
    (cleanup_user_data tenants user_id true rand).2.2 =
      (files.map (fun f => FsEvent.overwrite f.path (rand f.content.length))) ++
        [FsEvent.removeTree user_id] ∧
    ∀ f ∈ files, (rand f.content.length).length = f.content.length := by
  unfold cleanup_user_data
  rw [hdir]
  refine ⟨rfl, ?_, rfl, ?_⟩
  · exact assocLookup_erase_self user_id tenants hnodup
  · intro f hf
    exact hrand f.content.length

theorem c9_cleanup_secure_witness :
    (cleanup_user_data [(4, [⟨"f1", [10, 20, 30]⟩, ⟨"f2", [7]⟩])] 4 true
      (fun n => List.replicate n 0)).1 = true ∧
    assocLookup 4 (cleanup_user_data [(4, [⟨"f1", [10, 20, 30]⟩, ⟨"f2", [7]⟩])] 4 true
      (fun n => List.replicate n 0)).2.1 = none ∧
    (cleanup_user_data [(4, [⟨"f1", [10, 20, 30]⟩, ⟨"f2", [7]⟩])] 4 true
      (fun n => List.replicate n 0)).2.2 =
      [FsEvent.overwrite "f1" [0, 0, 0], FsEvent.overwrite "f2" [0],
        FsEvent.removeTree 4] := by
  have h := c9_cleanup_secure [(4, [⟨"f1", [10, 20, 30]⟩, ⟨"f2", [7]⟩])] 4
    (fun n => List.replicate n 0) [⟨"f1", [10, 20, 30]⟩, ⟨"f2", [7]⟩]
    (by decide) (fun n => by simp) (by decide)
  refine ⟨h.1, h.2.1, ?_⟩
  rw [h.2.2.1]
  decide

/-- Reachability invariant of the session manager: session keys are dict-like
(no duplicates) and every stored session has status among "code_sent",
"authenticated", "password_required" — never "pending" (sessions are created
directly in "code_sent" by `start_authentication`). -/
def smSessionInv (st : SMState) : Prop :=
  (st.active_sessions.map Prod.fst).Nodup ∧
  ∀ uid s, assocLookup uid st.active_sessions = some s →
    s.status = "code_sent" ∨ s.status = "authenticated" ∨ s.status = "password_required"

theorem smApply_inv (st : SMState) (op : SMOp) (h : smSessionInv st) :
    smSessionInv (smApply st op) := by
  obtain ⟨hnd, hst⟩ := h
  cases op with
  | start uid phone api_id api_hash now o =>
    cases o with
    | alreadyAuthorized => exact ⟨hnd, hst⟩
    | codeSent hsh =>
      simp only [smApply, start_authentication]
      refine ⟨assocInsert_keys_nodup _ _ _ hnd, ?_⟩
      intro uid2 s hl
      rw [assocLookup_insert] at hl
      by_cases he : uid2 = uid
      · rw [if_pos he] at hl
        injection hl with hl2
        rw [← hl2]
        exact Or.inl rfl
      · rw [if_neg he] at hl
        exact hst uid2 s hl
    | phoneInvalid => exact ⟨hnd, hst⟩
    | exn => exact ⟨hnd, hst⟩
  | vcode uid code now r =>
    simp only [smApply, verify_code]
    cases hl0 : assocLookup uid st.active_sessions with
    | none => exact ⟨hnd, hst⟩
    | some s =>
      by_cases hexp : s.expires_at < now
      · simp only [if_pos hexp]
        refine ⟨assocErase_keys_nodup _ _ hnd, ?_⟩
        intro uid2 s2 hl
        by_cases he : uid2 = uid
        · subst he
          rw [assocLookup_erase_self _ _ hnd] at hl
          cases hl
        · rw [assocLookup_erase _ _ _ he] at hl
          exact hst uid2 s2 hl
      · simp only [if_neg hexp]
        by_cases hc : st.authenticated_clients.contains uid
        · simp only [hc, if_true]
          cases r with
          | ok =>
            refine ⟨assocInsert_keys_nodup _ _ _ hnd, ?_⟩
            intro uid2 s2 hl
            rw [assocLookup_insert] at hl
            by_cases he : uid2 = uid
            · rw [if_pos he] at hl
              injection hl with hl2
              rw [← hl2]
              exact Or.inr (Or.inl rfl)
            · rw [if_neg he] at hl
              exact hst uid2 s2 hl
          | passwordNeeded =>
            refine ⟨assocInsert_keys_nodup _ _ _ hnd, ?_⟩
            intro uid2 s2 hl
            rw [assocLookup_insert] at hl
            by_cases he : uid2 = uid
            · rw [if_pos he] at hl
              injection hl with hl2
              rw [← hl2]
              exact Or.inr (Or.inr rfl)
            · rw [if_neg he] at hl
              exact hst uid2 s2 hl
          | codeInvalid => exact ⟨hnd, hst⟩
          | exn => exact ⟨hnd, hst⟩
        · simp only [hc, if_false]
          exact ⟨hnd, hst⟩
  | vpass uid pw now ok =>
    simp only [smApply, verify_password]
    cases hl0 : assocLookup uid st.active_sessions with
    | none => exact ⟨hnd, hst⟩
    | some s =>
      by_cases hpr : s.status = "password_required"
      · simp only [if_pos hpr]
        by_cases hc : st.authenticated_clients.contains uid
        · simp only [hc, if_true]
          by_cases hok : ok = true
          · simp only [if_pos hok]
            refine ⟨assocInsert_keys_nodup _ _ _ hnd, ?_⟩
            intro uid2 s2 hl
            rw [assocLookup_insert] at hl
            by_cases he : uid2 = uid
            · rw [if_pos he] at hl
              injection hl with hl2
              rw [← hl2]
              exact Or.inr (Or.inl rfl)
            · rw [if_neg he] at hl
              exact hst uid2 s2 hl
          · simp only [if_neg hok]
            exact ⟨hnd, hst⟩
        · simp only [hc, if_false]
          exact ⟨hnd, hst⟩
      · simp only [if_neg hpr]
        exact ⟨hnd, hst⟩

theorem smRun_inv_of (ops : List SMOp) :
    ∀ st : SMState, smSessionInv st → smSessionInv (smRun st ops) := by
  induction ops with
  | nil => intro st h; exact h
  | cons op rest ih =>
    intro st h
    simpa [smRun, List.foldl_cons] using ih (smApply st op) (smApply_inv st op h)

theorem smRun_inv (ops : List SMOp) : smSessionInv (smRun smInit ops) :=
  smRun_inv_of ops smInit ⟨List.nodup_nil, fun uid s hl => by cases hl⟩

/-- One-step analysis: if an operation makes the stored session of user `uid` have
status "password_required" while it did not before, then the operation is a
`verify_code` for `uid` whose provider outcome was
`SessionPasswordNeededError`, and `uid` already had a stored session — one
whose status was "code_sent" or "authenticated", never "pending". -/
theorem smApply_password_required_entry (st : SMState) (op : SMOp) (uid : Nat)
    (s2 : AuthSession)
    (hinv : smSessionInv st)
    (hpost : assocLookup uid (smApply st op).active_sessions = some s2)
    (hpr : s2.status = "password_required")
    (hnew : ∀ s, assocLookup uid st.active_sessions = some s →
      ¬ s.status = "password_required") :
    (∃ code now, op = SMOp.vcode uid code now SignInResult.passwordNeeded) ∧
    ∃ s, assocLookup uid st.active_sessions = some s ∧
      ¬ s.status = "pending" ∧
      (s.status = "code_sent" ∨ s.status = "authenticated") := by
  cases op with
  | start uid2 phone api_id api_hash now o =>
    cases o with
    | alreadyAuthorized =>
      simp only [smApply, start_authentication] at hpost
      exact absurd hpr (hnew s2 hpost)
    | codeSent hsh =>
      simp only [smApply, start_authentication] at hpost
      rw [assocLookup_insert] at hpost
      by_cases he : uid = uid2
      · rw [if_pos he] at hpost
        injection hpost with hl2
        rw [← hl2] at hpr
        exact absurd (show ("code_sent" : String) = "password_required" from hpr) (by decide)
      · rw [if_neg he] at hpost
        exact absurd hpr (hnew s2 hpost)
    | phoneInvalid =>
      simp only [smApply, start_authentication] at hpost
      exact absurd hpr (hnew s2 hpost)
    | exn =>
      simp only [smApply, start_authentication] at hpost
      exact absurd hpr (hnew s2 hpost)
  | vcode uid2 code now r =>
    simp only [smApply, verify_code] at hpost
    cases hl0 : assocLookup uid2 st.active_sessions with
    | none =>
      rw [hl0] at hpost
      exact absurd hpr (hnew s2 hpost)
    | some s =>
      rw [hl0] at hpost
      by_cases hexp : s.expires_at < now
      · simp only [if_pos hexp] at hpost
        by_cases he : uid = uid2
        · rw [he, assocLookup_erase_self _ _ hinv.1] at hpost
          cases hpost
        · rw [assocLookup_erase _ _ _ he] at hpost
          exact absurd hpr (hnew s2 hpost)
      · simp only [if_neg hexp] at hpost
        by_cases hc : st.authenticated_clients.contains uid2
        · simp only [hc, if_true] at hpost
          cases r with
          | ok =>
            rw [assocLookup_insert] at hpost
            by_cases he : uid = uid2
            · rw [if_pos he] at hpost
              injection hpost with hl2
              rw [← hl2] at hpr
              exact absurd (show ("authenticated" : String) = "password_required" from hpr)
                (by decide)
            · rw [if_neg he] at hpost
              exact absurd hpr (hnew s2 hpost)
          | passwordNeeded =>
            rw [assocLookup_insert] at hpost
            by_cases he : uid = uid2
            · rw [← he] at hl0
              refine ⟨⟨code, now, by rw [he]⟩, s, hl0, ?_, ?_⟩
              · rcases hinv.2 uid s hl0 with h | h | h
                · rw [h]; decide
                · rw [h]; decide
                · exact absurd h (hnew s hl0)
              · rcases hinv.2 uid s hl0 with h | h | h
                · exact Or.inl h
                · exact Or.inr h
                · exact absurd h (hnew s hl0)
            · rw [if_neg he] at hpost
              exact absurd hpr (hnew s2 hpost)
          | codeInvalid =>
            exact absurd hpr (hnew s2 hpost)
          | exn =>
            exact absurd hpr (hnew s2 hpost)
        · simp only [hc, if_false] at hpost
          exact absurd hpr (hnew s2 hpost)
  | vpass uid2 pw now ok =>
    simp only [smApply, verify_password] at hpost
    cases hl0 : assocLookup uid2 st.active_sessions with
    | none =>
      rw [hl0] at hpost
      exact absurd hpr (hnew s2 hpost)
    | some s =>
      rw [hl0] at hpost
      by_cases hspr : s.status = "password_required"
      · simp only [if_pos hspr] at hpost
        by_cases hc : st.authenticated_clients.contains uid2
        · simp only [hc, if_true] at hpost
          by_cases hok : ok = true
          · simp only [if_pos hok] at hpost
            rw [assocLookup_insert] at hpost
            by_cases he : uid = uid2
            · rw [if_pos he] at hpost
              injection hpost with hl2
              rw [← hl2] at hpr
              exact absurd (show ("authenticated" : String) = "password_required" from hpr)
                (by decide)
            · rw [if_neg he] at hpost
              exact absurd hpr (hnew s2 hpost)
          · simp only [if_neg hok] at hpost
            exact absurd hpr (hnew s2 hpost)
        · simp only [hc, if_false] at hpost
          exact absurd hpr (hnew s2 hpost)
      · simp only [if_neg hspr] at hpost
        exact absurd hpr (hnew s2 hpost)

/-- C7 (amended): along any run of authentication operations from the
initial manager state, the status "password_required" is only ever entered by
a `verify_code` call whose provider demanded a second factor — never by
`start_authentication` — and the session it acts on already exists with
status "code_sent" or "authenticated" (never "pending"; `verify_code` does
not require the prior status to be "code_sent"). -/
theorem c7_password_required_entry (ops : List SMOp) (op : SMOp) (uid : Nat)
    (s2 : AuthSession)
    (hpost : assocLookup uid (smApply (smRun smInit ops) op).active_sessions = some s2)
    (hpr : s2.status = "password_required")
    (hnew : ∀ s, assocLookup uid (smRun smInit ops).active_sessions = some s →
      ¬ s.status = "password_required") :
    (∃ code now, op = SMOp.vcode uid code now SignInResult.passwordNeeded) ∧
    ∃ s, assocLookup uid (smRun smInit ops).active_sessions = some s ∧
      ¬ s.status = "pending" ∧
      (s.status = "code_sent" ∨ s.status = "authenticated") :=
  smApply_password_required_entry (smRun smInit ops) op uid s2 (smRun_inv ops)
    hpost hpr hnew

/-- A reachable trace in which the session of user 3 becomes "authenticated":
start (code sent), then a successful code verification. -/
def c7trace : List SMOp :=
  [SMOp.start 3 "+3000" 12345 "hash" 0 (StartOutcome.codeSent "ch"),
   SMOp.vcode 3 "111" 10 SignInResult.ok]

/-- C7 counterexample: after `c7trace` the stored session of user 3 has
status "authenticated" — not "code_sent" — yet a further `verify_code` call
whose provider demands a second factor moves it to "password_required".  So
"password_required" can be entered from a session that is not in status
CODE_SENT. -/
theorem c7_counterexample :
    (assocLookup 3 (smRun smInit c7trace).active_sessions).map AuthSession.status =
      some "authenticated" ∧
    ¬ (assocLookup 3 (smRun smInit c7trace).active_sessions).map AuthSession.status =
      some "code_sent" ∧
    (assocLookup 3 (smApply (smRun smInit c7trace)
        (SMOp.vcode 3 "222" 20 SignInResult.passwordNeeded)).active_sessions).map
      AuthSession.status = some "password_required" := by
  refine ⟨by decide, by decide, by decide⟩

theorem c7_password_required_entry_witness :
    (∃ code now, SMOp.vcode 3 "111" 10 SignInResult.passwordNeeded =
        SMOp.vcode 3 code now SignInResult.passwordNeeded) ∧
    ∃ s, assocLookup 3 (smRun smInit [SMOp.start 3 "+3000" 12345 "hash" 0
        (StartOutcome.codeSent "ch")]).active_sessions = some s ∧
      ¬ s.status = "pending" ∧
      (s.status = "code_sent" ∨ s.status = "authenticated") := by
  have hnew : ∀ s, assocLookup 3 (smRun smInit [SMOp.start 3 "+3000" 12345 "hash" 0
      (StartOutcome.codeSent "ch")]).active_sessions = some s →
      ¬ s.status = "password_required" := by
    intro s hs
    have h0 : assocLookup 3 (smRun smInit [SMOp.start 3 "+3000" 12345 "hash" 0
        (StartOutcome.codeSent "ch")]).active_sessions =
        some ⟨3, "+3000", 12345, "hash", sessionFilePath 3, "code_sent",
          some "ch", 0, 300⟩ := by
      decide
    rw [h0] at hs
    injection hs with hs2
    rw [← hs2]
    decide
  exact c7_password_required_entry
    [SMOp.start 3 "+3000" 12345 "hash" 0 (StartOutcome.codeSent "ch")]
    (SMOp.vcode 3 "111" 10 SignInResult.passwordNeeded) 3
    ⟨3, "+3000", 12345, "hash", sessionFilePath 3, "password_required",
      some "ch", 0, 300⟩
    (by decide) (by decide) hnew

end Ascl
